import Mathlib

/-!
# shuttlebot: the schedule handler and its time arithmetic

A shallow embedding of `shuttlebot.go`.

* Instants (`time.Time`) are integers: nanoseconds on the absolute time line, counted from
  the Unix epoch.  `t.After(u)` is `u < t`.
* The calendar of the `time` package is the proleptic Gregorian calendar, computed here by
  `civilFromDays` and `daysFromCivil`.
* The loaded location (`time.LoadLocation("America/New_York")`) is a parameter, `Location`:
  the table of its UTC offsets, as `lookup`; `time.Date` and the wall-clock fields of an
  instant are computed from it as the `time` package does.
* `time.Now()` is read from a `Clock`, the sequence of instants successive calls return; the
  functions that read the clock pass the rest of it on.
* A handler returns the `Response` it writes, or `none` when it panics.
-/

namespace Shuttlebot

/-! ## Instants and the calendar -/

/-- An instant: nanoseconds since 1970-01-01T00:00:00Z. -/
abbrev Time := Int

/-- Go `t.After(u)`: the instant `t` is strictly later than `u`. -/
def Time.After (t u : Time) : Bool := decide (u < t)

/-- Nanoseconds in a second. -/
def nsPerSecond : Int := 1000000000

/-- Nanoseconds in a minute. -/
def nsPerMinute : Int := 60 * nsPerSecond

/-- Nanoseconds in an hour. -/
def nsPerHour : Int := 60 * nsPerMinute

/-- Nanoseconds in a day of 24 hours. -/
def nsPerDay : Int := 24 * nsPerHour

/-- Year, month and day of the day with the given number (days since 1970-01-01) in the
proleptic Gregorian calendar.  The day is located in its 400-year era, then in its century,
its 4-year cycle and its year, all counted from 1 March; the month follows from the day of
that March-based year. -/
def civilFromDays (z : Int) : Int × Int × Int :=
  let z1 := z + 719468
  let era := z1 / 146097
  let doe := z1 % 146097
  let c := min (doe / 36524) 3
  let r1 := doe - c * 36524
  let q := r1 / 1461
  let r2 := r1 - q * 1461
  let a := min (r2 / 365) 3
  let doy := r2 - a * 365
  let mp := (5 * doy + 2) / 153
  let d := doy - (153 * mp + 2) / 5 + 1
  let m := if mp < 10 then mp + 3 else mp - 9
  let y := era * 400 + c * 100 + q * 4 + a
  (if m ≤ 2 then y + 1 else y, m, d)

/-- Day number (days since 1970-01-01) of a year, month and day.  As in `time.Date`, values
out of range are normalised: months beyond 1..12 carry into the year, days beyond the month
carry on linearly. -/
def daysFromCivil (year month day : Int) : Int :=
  let y0 := year + (month - 1) / 12
  let m := (month - 1) % 12 + 1
  let y := if m ≤ 2 then y0 - 1 else y0
  let era := y / 400
  let yoe := y % 400
  let mp := if m > 2 then m - 3 else m + 9
  let doy := (153 * mp + 2) / 5 + day - 1
  let doe := yoe * 365 + yoe / 4 - yoe / 100 + doy
  era * 146097 + doe - 719468

/-- A wall-clock reading, as nanoseconds since 1970-01-01 00:00 on the wall clock, of the
given date and time of day.  Out-of-range fields carry over, as in `time.Date`. -/
def wallOfCivil (year month day hour min sec nsec : Int) : Int :=
  daysFromCivil year month day * nsPerDay
    + hour * nsPerHour + min * nsPerMinute + sec * nsPerSecond + nsec

/-- A loaded `*time.Location`, as its method `lookup`: for an instant `t`, the zone's offset
from UTC in force at `t`, in nanoseconds, and the bounds of the period that offset is in
force for, from the first (included) to the second (excluded); `none` stands for a period
without that bound. -/
structure Location where
  lookup : Time → Int × Option Time × Option Time

/-- The zone's offset from UTC in force at the instant `t`. -/
def Location.offset (tz : Location) (t : Time) : Int := (tz.lookup t).1

/-- Whether the instant `utc` lies outside the period from `start` (included) to `stop`
(excluded). -/
def outsidePeriod (start stop : Option Time) (utc : Time) : Bool :=
  (match start with
    | some s => decide (utc < s)
    | none => false)
  || (match stop with
    | some e => decide (utc ≥ e)
    | none => false)

/-- The end of Go `time.Date`: the wall-clock reading `w` is first looked up as if it were
UTC; when the instant that offset gives falls outside the period found, the offset in force
at that instant is taken instead. -/
def dateResolve (lookup : Time → Int × Option Time × Option Time) (w : Int) : Time :=
  match lookup w with
  | (offset, start, stop) =>
    if offset ≠ 0 then
      let utc := w - offset
      if outsidePeriod start stop utc then w - (lookup utc).1 else w - offset
    else w

/-- The instant `time.Date` picks in the location for the wall-clock reading `w`. -/
def Location.resolve (tz : Location) (w : Int) : Time := dateResolve tz.lookup w

/-- The wall-clock reading of the instant `t` in the location. -/
def Location.wall (tz : Location) (t : Time) : Int := t + tz.offset t

/-- Go `t.In(tz).Year()`. -/
def Location.Year (tz : Location) (t : Time) : Int :=
  (civilFromDays (tz.wall t / nsPerDay)).1

/-- Go `t.In(tz).Month()`, January being 1. -/
def Location.Month (tz : Location) (t : Time) : Int :=
  (civilFromDays (tz.wall t / nsPerDay)).2.1

/-- Go `t.In(tz).Day()`. -/
def Location.Day (tz : Location) (t : Time) : Int :=
  (civilFromDays (tz.wall t / nsPerDay)).2.2

/-- Go `t.In(tz).Hour()`. -/
def Location.Hour (tz : Location) (t : Time) : Int := tz.wall t % nsPerDay / nsPerHour

/-- Go `t.In(tz).Minute()`. -/
def Location.Minute (tz : Location) (t : Time) : Int := tz.wall t % nsPerHour / nsPerMinute

/-- Go `t.In(tz).Second()`. -/
def Location.Second (tz : Location) (t : Time) : Int := tz.wall t % nsPerMinute / nsPerSecond

/-- Go `t.In(tz).Nanosecond()`. -/
def Location.Nanosecond (tz : Location) (t : Time) : Int := tz.wall t % nsPerSecond

/-- Go `time.Date(year, month, day, hour, min, sec, nsec, tz)`. -/
def Location.Date (tz : Location) (year month day hour min sec nsec : Int) : Time :=
  tz.resolve (wallOfCivil year month day hour min sec nsec)

/-- The process clock: the instants that the successive calls of `time.Now()` return. -/
abbrev Clock := Nat → Time

/-- Go `time.Now()`: the next reading, and the clock left for the calls that follow. -/
def Clock.now (clock : Clock) : Time × Clock := (clock 0, fun n => clock (n + 1))

/-- A clock that shows the same instant at every reading. -/
def Clock.frozen (t : Time) : Clock := fun _ => t

/-! ## The program -/

/-- Source `ClockTime`: a time of day, as hour and minute. -/
structure ClockTime where
  hour : Int
  minute : Int
deriving DecidableEq, Repr

/-- Source `Schedule`. -/
abbrev Schedule := List ClockTime

/-- Source `TimeSlice`. -/
abbrev TimeSlice := List Time

/-- Source `timeFromClockTime`.  `loc` is what `time.LoadLocation("America/New_York")`
returned; with a nil location `time.Now().In(tz)` panics (`none`). -/
def timeFromClockTime (loc : Option Location) (ct : ClockTime) (clock : Clock) :
    Option (Time × Clock) :=
  match loc with
  | none => none
  | some tz =>
    let (now, clock1) := clock.now
    let year := tz.Year now
    let month := tz.Month now
    let day := tz.Day now
    some (tz.Date year month day ct.hour ct.minute 0 0, clock1)

/-- Source `timeSliceFromSchedule`: the entries are resolved one after the other, each with
a clock reading of its own. -/
def timeSliceFromSchedule (loc : Option Location) : Schedule → Clock → Option (TimeSlice × Clock)
  | [], clock => some ([], clock)
  | ct :: s, clock =>
    match timeFromClockTime loc ct clock with
    | none => none
    | some (t, clock1) =>
      match timeSliceFromSchedule loc s clock1 with
      | none => none
      | some (ts, clock2) => some (t :: ts, clock2)

/-- The loop of `timesAfter`: `tsf` is the slice built so far. -/
def timesAfterLoop (comp : Time) (limit : Int) : TimeSlice → TimeSlice → TimeSlice
  | [], tsf => tsf
  | t :: ts, tsf =>
    if t.After comp then
      let tsf1 := tsf ++ [t]
      if (tsf1.length : Int) ≥ limit then tsf1 else timesAfterLoop comp limit ts tsf1
    else timesAfterLoop comp limit ts tsf

/-- Source `timesAfter`. -/
def timesAfter (ts : TimeSlice) (comp : Time) (limit : Int) : TimeSlice :=
  timesAfterLoop comp limit ts []

/-! ### `Time.Format` -/

/-- Go `appendInt`: the decimal digits of `x`, zero-padded on the left to `width`, after a
minus sign when `x` is negative. -/
def appendInt (x : Int) (width : Nat) : List Char :=
  let ds := Nat.toDigits 10 x.natAbs
  (if x < 0 then ['-'] else []) ++ List.replicate (width - ds.length) '0' ++ ds

/-- The layout chunks of `Time.Format` for the time of day; everything else in a layout is
kept here as literal text (the date, zone and fraction chunks of the `time` package are not
interpreted). -/
inductive Chunk where
  | lit (c : Char)
  | stdHour
  | stdHour12
  | stdZeroHour12
  | stdMinute
  | stdZeroMinute
  | stdSecond
  | stdZeroSecond
  | stdPM
  | stdpm
deriving DecidableEq, Repr

/-- Go `nextStdChunk`, repeated to the end of the layout: `15`, `03`, `3`, `04`, `4`, `05`,
`5`, `PM` and `pm` are the chunks recognised. -/
def layoutChunks : List Char → List Chunk
  | '1' :: '5' :: r => Chunk.stdHour :: layoutChunks r
  | '0' :: '3' :: r => Chunk.stdZeroHour12 :: layoutChunks r
  | '0' :: '4' :: r => Chunk.stdZeroMinute :: layoutChunks r
  | '0' :: '5' :: r => Chunk.stdZeroSecond :: layoutChunks r
  | '3' :: r => Chunk.stdHour12 :: layoutChunks r
  | '4' :: r => Chunk.stdMinute :: layoutChunks r
  | '5' :: r => Chunk.stdSecond :: layoutChunks r
  | 'P' :: 'M' :: r => Chunk.stdPM :: layoutChunks r
  | 'p' :: 'm' :: r => Chunk.stdpm :: layoutChunks r
  | c :: r => Chunk.lit c :: layoutChunks r
  | [] => []

/-- The text `Time.Format` writes for one chunk, at the wall-clock hour, minute and second
given. -/
def formatChunk (hour min sec : Int) : Chunk → List Char
  | Chunk.lit c => [c]
  | Chunk.stdHour => appendInt hour 2
  | Chunk.stdHour12 => appendInt (if hour % 12 = 0 then 12 else hour % 12) 0
  | Chunk.stdZeroHour12 => appendInt (if hour % 12 = 0 then 12 else hour % 12) 2
  | Chunk.stdMinute => appendInt min 0
  | Chunk.stdZeroMinute => appendInt min 2
  | Chunk.stdSecond => appendInt sec 0
  | Chunk.stdZeroSecond => appendInt sec 2
  | Chunk.stdPM => if hour ≥ 12 then ['P', 'M'] else ['A', 'M']
  | Chunk.stdpm => if hour ≥ 12 then ['p', 'm'] else ['a', 'm']

/-- The text of a layout at a given wall-clock hour, minute and second. -/
def formatClock (hour min sec : Int) (layout : String) : String :=
  String.mk ((layoutChunks layout.data).flatMap (formatChunk hour min sec))

/-- Go `t.Format(layout)` for an instant in the location `tz`. -/
def Location.Format (tz : Location) (t : Time) (layout : String) : String :=
  formatClock (tz.Hour t) (tz.Minute t) (tz.Second t) layout

/-- Source `formatTimeSlice`. -/
def formatTimeSlice (tz : Location) (ts : TimeSlice) (layout : String) : List String :=
  ts.map (fun t => tz.Format t layout)

/-! ### Responses -/

/-- What a handler writes to its `http.ResponseWriter`. -/
structure Response where
  contentType : String
  status : Int
  body : String
deriving DecidableEq, Repr

/-- Two hexadecimal digits, lower case. -/
def hex2 (n : Nat) : List Char :=
  [Nat.digitChar (n / 16 % 16), Nat.digitChar (n % 16)]

/-- How `encoding/json` writes one character of a string: quotes and backslashes are
escaped, control characters and (for an `Encoder`, which escapes HTML) `<`, `>`, `&` and the
two Unicode line separators are written as `\u` escapes. -/
def jsonEscape (c : Char) : List Char :=
  let bs := Char.ofNat 92
  if c = Char.ofNat 34 ∨ c = bs then [bs, c]
  else if c = Char.ofNat 10 then [bs, 'n']
  else if c = Char.ofNat 13 then [bs, 'r']
  else if c = Char.ofNat 9 then [bs, 't']
  else if c.toNat < 32 ∨ c = '<' ∨ c = '>' ∨ c = '&' then [bs, 'u', '0', '0'] ++ hex2 c.toNat
  else if c.toNat = 8232 ∨ c.toNat = 8233 then
    [bs, 'u', '2', '0', '2', Nat.digitChar (c.toNat % 16)]
  else [c]

/-- A JSON string literal. -/
def jsonString (s : String) : String :=
  "\"" ++ String.mk (s.data.flatMap jsonEscape) ++ "\""

/-- A JSON object from its encoded members. -/
def jsonObject (members : List String) : String :=
  "\x7b" ++ ",".intercalate members ++ "\x7d"

/-- A JSON array from its encoded elements. -/
def jsonArray (elements : List String) : String :=
  "[" ++ ",".intercalate elements ++ "]"

/-- The `encoding/json` text of a `map[string]string`, given as its key/value pairs in key
order. -/
def jsonStringMap (m : List (String × String)) : String :=
  jsonObject (m.map (fun kv => jsonString kv.1 ++ ":" ++ jsonString kv.2))

/-- The `encoding/json` text of a `map[string][]map[string]string`, given as its key/value
pairs in key order. -/
def jsonMarshal (data : List (String × List (List (String × String)))) : String :=
  jsonObject (data.map (fun kv => jsonString kv.1 ++ ":" ++ jsonArray (kv.2.map jsonStringMap)))

/-- Source `writeJSON`, for data of the type `writeError` passes.  `Encoder.Encode` writes
the JSON text followed by a newline. -/
def writeJSON (data : List (String × List (List (String × String)))) (code : Int) : Response :=
  { contentType := "application/json; charset=UTF-8"
    status := code
    body := jsonMarshal data ++ "\n" }

/-- Source `writeError`. -/
def writeError (message : String) (code : Int) : Response :=
  writeJSON [("errors", [[("message", message)]])] code

/-! ### The `/slack/` handler -/

/-- Go `strings.ToLower` on one rune: ASCII letters are lowered by the program text of the
`unicode` package, every other rune by its case table, which is `table` here. -/
def toLowerRune (table : Char → Char) (r : Char) : Char :=
  if r.toNat < 128 then
    if 'A' ≤ r ∧ r ≤ 'Z' then Char.ofNat (r.toNat + 32) else r
  else table r

/-- Go `strings.ToLower`. -/
def ToLower (table : Char → Char) (s : String) : String :=
  String.mk (s.data.map (toLowerRune table))

/-- Go `url.Values`: the values of each form field. -/
abbrev Values := String → List String

/-- Go `Values.Get`: the first value of the field, or the empty string. -/
def Values.Get (v : Values) (key : String) : String :=
  match v key with
  | [] => ""
  | x :: _ => x

/-- A request, as far as the handler looks at it: what `req.ParseForm()` leaves in
`req.Form`, or `none` when it returns an error. -/
structure Request where
  form : Option Values

/-- What the process finds around it: the location `time.LoadLocation("America/New_York")`
returns (`none` when it fails and the location is nil) and the case table of the `unicode`
package for the runes beyond ASCII. -/
structure Env where
  location : Option Location
  lowerTable : Char → Char

/-- The schedule literal of `case "bva"`. -/
def bvaSchedule : Schedule :=
  [⟨7, 20⟩, ⟨8, 25⟩, ⟨9, 30⟩, ⟨10, 35⟩, ⟨11, 40⟩, ⟨12, 45⟩, ⟨13, 50⟩, ⟨14, 55⟩, ⟨16, 0⟩,
    ⟨17, 5⟩]

/-- The schedule literal of `case "vaco"`. -/
def vacoSchedule : Schedule :=
  [⟨7, 0⟩, ⟨8, 5⟩, ⟨9, 10⟩, ⟨10, 15⟩, ⟨11, 20⟩, ⟨12, 25⟩, ⟨13, 30⟩, ⟨14, 35⟩, ⟨15, 40⟩,
    ⟨16, 45⟩, ⟨17, 50⟩]

/-- The `switch location` of the handler: the hardcoded schedule of a location, `none` in
the `default` case. -/
def scheduleFor (location : String) : Option Schedule :=
  if location = "bva" then some bvaSchedule
  else if location = "vaco" then some vacoSchedule
  else none

/-- The departures of a request: `now` is read first, then the schedule is resolved entry
by entry on the readings that follow, and `timesAfter` keeps at most 3 instants after
`now`.  The result comes with `now`; `none` is a panic on a nil location. -/
def departures (loc : Option Location) (schedule : Schedule) (clock : Clock) :
    Option (Time × TimeSlice) :=
  match loc with
  | none => none
  | some _ =>
    let (now, clock1) := clock.now
    match timeSliceFromSchedule loc schedule clock1 with
    | none => none
    | some (ts, _) => some (now, timesAfter ts now 3)

/-- The handler registered for `/slack/` in `main`. -/
def slackHandler (env : Env) (req : Request) (clock : Clock) : Option Response :=
  match req.form with
  | none => some (writeError "Error parsing form" 500)
  | some form =>
    let location := ToLower env.lowerTable (form.Get "text")
    match scheduleFor location with
    | none => some (writeError "Shuttle location not found" 500)
    | some schedule =>
      match env.location, departures env.location schedule clock with
      | some tz, some (_, times) =>
        let fmtdTimes := formatTimeSlice tz times "3:04PM"
        let result := "Upcoming departures: " ++ ", ".intercalate fmtdTimes
        some { contentType := "text/plain; charset=UTF-8", status := 200, body := result }
      | _, _ => none

/-- The handler registered for `/` in `main`. -/
def rootHandler : Response := writeError "No such page" 404

/-! ## Wall-clock readings and the regularity of a zone -/

/-- Nanoseconds after midnight at which a wall clock shows `hour:min`. -/
def clockNs (hour min : Int) : Int := hour * nsPerHour + min * nsPerMinute

/-- The number of the calendar day (days since 1970-01-01) the wall clock of the location
shows at the instant `t`. -/
def Location.dayNumber (tz : Location) (t : Time) : Int := tz.wall t / nsPerDay

/-- The time of day the wall clock of the location shows at the instant `t`, in nanoseconds
after midnight. -/
def Location.timeOfDay (tz : Location) (t : Time) : Int := tz.wall t % nsPerDay

/-- A date and time of day as a wall clock shows it. -/
structure Civil where
  year : Int
  month : Int
  day : Int
  hour : Int
  minute : Int
  second : Int
  nanosecond : Int
deriving DecidableEq, Repr

/-- The date and time the wall clock of the location shows at the instant `t`. -/
def Location.civil (tz : Location) (t : Time) : Civil :=
  { year := tz.Year t, month := tz.Month t, day := tz.Day t, hour := tz.Hour t,
    minute := tz.Minute t, second := tz.Second t, nanosecond := tz.Nanosecond t }

/-- The instant `timeFromClockTime` returns for `ct` when its clock reading is `now`. -/
def resolveOn (tz : Location) (now : Time) (ct : ClockTime) : Time :=
  tz.Date (tz.Year now) (tz.Month now) (tz.Day now) ct.hour ct.minute 0 0

/-- The time of day, 03:00, by which the transitions of a day are over: the United States
zones change their offset at 02:00 wall-clock time, by one hour. -/
def settled : Int := 3 * nsPerHour

/-- The zone is regular on the calendar day number `d`: `time.Date` resolves every reading
of that day that some instant shows to an instant showing it; every reading of that day from
03:00 on is shown by some instant; and an instant of that day whose reading is 03:00 or
later is after another instant of that day exactly when its reading is the later one. -/
structure Location.RegularOn (tz : Location) (d : Int) : Prop where
  resolve_wall : ∀ t, tz.wall t / nsPerDay = d → tz.wall (tz.resolve (tz.wall t)) = tz.wall t
  settled_exists : ∀ w, w / nsPerDay = d → settled ≤ w % nsPerDay → ∃ t, tz.wall t = w
  settled_order : ∀ a b, tz.wall a / nsPerDay = d → tz.wall b / nsPerDay = d →
    settled ≤ tz.wall b % nsPerDay → (a < b ↔ tz.wall a < tz.wall b)

/-- The instant `time.Date` picks for the clock time `ct` on the calendar day number `d`. -/
def resolveDay (tz : Location) (d : Int) (ct : ClockTime) : Time :=
  tz.resolve (d * nsPerDay + clockNs ct.hour ct.minute)

/-- A clock time of a schedule that the transitions of a day do not touch: from 03:00 on,
with hour and minute in range. -/
def ClockTime.Settled (ct : ClockTime) : Prop :=
  3 ≤ ct.hour ∧ ct.hour < 24 ∧ 0 ≤ ct.minute ∧ ct.minute < 60

/-! ### America/New_York around 2024 -/

/-- Eastern Standard Time, UTC-5. -/
def est : Int := -5 * nsPerHour

/-- Eastern Daylight Time, UTC-4. -/
def edt : Int := -4 * nsPerHour

/-- The instant the clocks went from 02:00 EST to 03:00 EDT on 10 March 2024. -/
def springForward2024 : Time := wallOfCivil 2024 3 10 2 0 0 0 - est

/-- The instant the clocks went from 02:00 EDT back to 01:00 EST on 3 November 2024. -/
def fallBack2024 : Time := wallOfCivil 2024 11 3 2 0 0 0 - edt

/-- Go `Location.lookup` for America/New_York with the two transitions of 2024: the offset
in force at the instant `t` and the bounds of the period it is in force for (`none` for a
period without that bound). -/
def newYorkLookup (t : Time) : Int × Option Time × Option Time :=
  if t < springForward2024 then (est, none, some springForward2024)
  else if t < fallBack2024 then (edt, some springForward2024, some fallBack2024)
  else (est, some fallBack2024, none)

/-- America/New_York, with the transitions of 2024. -/
def newYork2024 : Location :=
  { lookup := newYorkLookup }

/-- The instant at which the wall clock of `newYork2024` shows the given date and time. -/
def newYorkTime (year month day hour min sec nsec : Int) : Time :=
  newYork2024.Date year month day hour min sec nsec

/-- The clock of a request that arrives just before midnight of 1 June 2024: `now` is read
at 23:59:59.999999999, the readings after it show midnight of 2 June. -/
def midnightClock : Clock := fun n =>
  if n = 0 then newYorkTime 2024 6 1 23 59 59 999999999 else newYorkTime 2024 6 2 0 0 0 0

/-! ## The words of the specification -/

/-- The decimal digit `n`. -/
def digit (n : Int) : Char := Char.ofNat (48 + n.toNat)

/-- A 12-hour clock string as the specification words it: the hour of the 12-hour clock
(12 when `h` mod 12 is 0) without a leading zero, a colon, the minute in two digits, and
`AM` before noon, `PM` from noon on. -/
def clock12 (h m : Int) : String :=
  let h12 := if h % 12 = 0 then 12 else h % 12
  String.mk ((if h12 < 10 then [digit h12] else [digit (h12 / 10), digit (h12 % 10)])
    ++ [':'] ++ [digit (m / 10), digit (m % 10)]
    ++ (if h < 12 then ['A', 'M'] else ['P', 'M']))

/-- The character `a` is the letter `k`, in the case of `k` or in the other case. -/
def sameLetter (a k : Char) : Bool := a == k || a == k.toUpper || a == k.toLower

/-- The text differs from the keyword at most in letter case. -/
def sameUpToCase : List Char → List Char → Bool
  | [], [] => true
  | a :: text, k :: keyword => sameLetter a k && sameUpToCase text keyword
  | _, _ => false

/-- The body the specification gives for an unknown location. -/
def notFoundJSON : String :=
  "\x7b\"errors\":[\x7b\"message\":\"Shuttle location not found\"\x7d]\x7d"

/-! # Theorems -/

/-! ## The calendar -/

theorem daysFromCivil_civilFromDays (z : Int) :
    daysFromCivil (civilFromDays z).1 (civilFromDays z).2.1 (civilFromDays z).2.2 = z := by
  simp only [civilFromDays, daysFromCivil]
  generalize hz1 : z + 719468 = z1
  have hdoe0 : 0 ≤ z1 % 146097 := Int.emod_nonneg _ (by decide)
  have hdoe1 : z1 % 146097 < 146097 := Int.emod_lt_of_pos _ (by decide)
  have hz : z1 = z1 / 146097 * 146097 + z1 % 146097 := by omega
  generalize z1 / 146097 = era at *
  generalize z1 % 146097 = doe at *
  have hc0 : 0 ≤ min (doe / 36524) 3 := by omega
  have hc3 : min (doe / 36524) 3 ≤ 3 := by omega
  have hc : min (doe / 36524) 3 * 36524 ≤ doe := by omega
  have hc' : doe - min (doe / 36524) 3 * 36524 ≤ 36524 := by omega
  generalize min (doe / 36524) 3 = c at *
  generalize hr1 : doe - c * 36524 = r1 at *
  have hq0 : 0 ≤ r1 / 1461 := by omega
  have hq1 : r1 / 1461 ≤ 24 := by omega
  have hq : 0 ≤ r1 - r1 / 1461 * 1461 ∧ r1 - r1 / 1461 * 1461 ≤ 1460 := by omega
  generalize r1 / 1461 = q at *
  generalize hr2 : r1 - q * 1461 = r2 at *
  have ha0 : 0 ≤ min (r2 / 365) 3 := by omega
  have ha3 : min (r2 / 365) 3 ≤ 3 := by omega
  have ha : 0 ≤ r2 - min (r2 / 365) 3 * 365 ∧ r2 - min (r2 / 365) 3 * 365 ≤ 365 := by omega
  generalize min (r2 / 365) 3 = a at *
  generalize hdoy : r2 - a * 365 = doy at *
  have hmp0 : 0 ≤ (5 * doy + 2) / 153 := by omega
  have hmp1 : (5 * doy + 2) / 153 ≤ 11 := by omega
  have hmp : 153 * ((5 * doy + 2) / 153) ≤ 5 * doy + 2 ∧ 5 * doy + 2 < 153 * ((5 * doy + 2) / 153) + 153 := by omega
  generalize (5 * doy + 2) / 153 = mp at *
  generalize hyoe : c * 100 + q * 4 + a = yoe
  have hyoe4 : yoe / 4 = c * 25 + q := by omega
  have hyoe100 : yoe / 100 = c := by omega
  by_cases h10 : mp < 10
  · have e1 : (mp + 3 - 1) / 12 = 0 := by omega
    have e2 : (mp + 3 - 1) % 12 + 1 = mp + 3 := by omega
    have e3 : ¬ (mp + 3 ≤ 2) := by omega
    have e4 : mp + 3 > 2 := by omega
    have e5 : (era * 400 + c * 100 + q * 4 + a) / 400 = era := by omega
    have e6 : (era * 400 + c * 100 + q * 4 + a) % 400 = yoe := by omega
    simp only [h10, if_true, e1, e2, e3, e4, if_false, add_zero, e5, e6, hyoe4, hyoe100]
    omega
  · have e1 : (mp - 9 - 1) / 12 = 0 := by omega
    have e2 : (mp - 9 - 1) % 12 + 1 = mp - 9 := by omega
    have e3 : mp - 9 ≤ 2 := by omega
    have e4 : ¬ (mp - 9 > 2) := by omega
    have e5 : (era * 400 + c * 100 + q * 4 + a + 1 - 1) / 400 = era := by omega
    have e6 : (era * 400 + c * 100 + q * 4 + a + 1 - 1) % 400 = yoe := by omega
    simp only [h10, if_true, e1, e2, e3, e4, if_false, add_zero, e5, e6, hyoe4, hyoe100]
    omega

/-! ## `timesAfter` -/

theorem timesAfterLoop_cons_after {comp : Time} {limit : Int} {t : Time} (ts tsf : TimeSlice)
    (ht : t.After comp = true) :
    timesAfterLoop comp limit (t :: ts) tsf
      = if ((tsf ++ [t]).length : Int) ≥ limit then tsf ++ [t]
        else timesAfterLoop comp limit ts (tsf ++ [t]) := by
  simp only [timesAfterLoop, ht, if_true]

theorem timesAfterLoop_cons_not_after {comp : Time} {limit : Int} {t : Time} (ts tsf : TimeSlice)
    (ht : ¬ t.After comp = true) :
    timesAfterLoop comp limit (t :: ts) tsf = timesAfterLoop comp limit ts tsf := by
  simp only [timesAfterLoop, ht, if_false]
  rfl

theorem timesAfterLoop_eq (comp : Time) (limit : Int) (ts : TimeSlice) :
    ∀ tsf : TimeSlice, (tsf.length : Int) < limit →
      timesAfterLoop comp limit ts tsf
        = tsf ++ (ts.filter (fun t => t.After comp)).take (limit.toNat - tsf.length) := by
  induction ts with
  | nil => intro tsf _; simp [timesAfterLoop]
  | cons t ts ih =>
    intro tsf h
    obtain ⟨k, hk⟩ : ∃ k, limit.toNat - tsf.length = k + 1 :=
      ⟨limit.toNat - tsf.length - 1, by omega⟩
    by_cases ht : t.After comp = true
    · rw [timesAfterLoop_cons_after ts tsf ht,
        List.filter_cons_of_pos (p := fun u : Time => u.After comp) ht, hk, List.take_succ_cons]
      have hlen : (tsf ++ [t]).length = tsf.length + 1 := by simp
      by_cases hfull : ((tsf ++ [t]).length : Int) ≥ limit
      · have hk0 : k = 0 := by omega
        rw [if_pos hfull, hk0, List.take_zero]
      · have hk1 : limit.toNat - (tsf ++ [t]).length = k := by omega
        rw [if_neg hfull, ih (tsf ++ [t]) (by omega), hk1, List.append_assoc]
        rfl
    · rw [timesAfterLoop_cons_not_after ts tsf ht, 
        List.filter_cons_of_neg (p := fun u : Time => u.After comp) ht, ih tsf h]

theorem timesAfter_eq_take_filter (ts : TimeSlice) (comp : Time) (limit : Int) (h : 1 ≤ limit) :
    timesAfter ts comp limit = (ts.filter (fun t => t.After comp)).take limit.toNat := by
  have := timesAfterLoop_eq comp limit ts [] (by simp; omega)
  simpa [timesAfter] using this

theorem timesAfter_nonpos (ts : TimeSlice) (comp : Time) (limit : Int) (h : limit ≤ 0) :
    timesAfter ts comp limit = (ts.find? (fun t => t.After comp)).toList := by
  unfold timesAfter
  induction ts with
  | nil => simp [timesAfterLoop]
  | cons t ts ih =>
    by_cases ht : t.After comp = true
    · have hfull : ((([] : TimeSlice) ++ [t]).length : Int) ≥ limit := by simp; omega
      rw [timesAfterLoop_cons_after ts [] ht, if_pos hfull, 
        List.find?_cons_of_pos (p := fun u : Time => u.After comp) _ ht]
      rfl
    · rw [timesAfterLoop_cons_not_after ts [] ht, ih, 
        List.find?_cons_of_neg (p := fun u : Time => u.After comp) _ ht]

/-! ## The zone `newYork2024` -/

theorem nsPerDay_eq : nsPerDay = 86400000000000 := by decide
theorem nsPerHour_eq : nsPerHour = 3600000000000 := by decide
theorem nsPerMinute_eq : nsPerMinute = 60000000000 := by decide
theorem nsPerSecond_eq : nsPerSecond = 1000000000 := by decide
theorem settled_eq : settled = 10800000000000 := by decide
theorem springForward2024_eq : springForward2024 = 1710054000000000000 := by decide
theorem fallBack2024_eq : fallBack2024 = 1730613600000000000 := by decide
theorem est_eq : est = -18000000000000 := by decide
theorem edt_eq : edt = -14400000000000 := by decide

theorem newYork2024_wall (t : Int) :
    newYork2024.wall t
      = if t < 1710054000000000000 then t - 18000000000000
        else if t < 1730613600000000000 then t - 14400000000000
        else t - 18000000000000 := by
  simp only [Location.wall, Location.offset, newYork2024, newYorkLookup, springForward2024_eq,
    fallBack2024_eq, est_eq, edt_eq]
  unfold Time at *
  split_ifs <;> dsimp only <;> omega

theorem newYork2024_resolve (w : Int) :
    newYork2024.resolve w
      = if w < 1710036000000000000 then w + 18000000000000
        else if w < 1730599200000000000 then w + 14400000000000
        else w + 18000000000000 := by
  simp only [Location.resolve, newYork2024, dateResolve, newYorkLookup, outsidePeriod,
    springForward2024_eq, fallBack2024_eq, est_eq, edt_eq]
  unfold Time at *
  split_ifs <;> dsimp only at * <;>
    simp only [Bool.or_eq_true, decide_eq_true_eq, Bool.false_or, Bool.or_false,
      Bool.false_eq_true, or_false, false_or, not_or, not_lt, not_le, ge_iff_le] at * <;>
    omega

theorem newYork2024_regularOn (d : Int) : newYork2024.RegularOn d := by
  refine ⟨?_, ?_, ?_⟩
  · intro t _
    unfold Time at t
    simp only [newYork2024_wall, newYork2024_resolve]
    split_ifs <;> omega
  · intro w _ hw
    refine ⟨newYork2024.resolve w, ?_⟩
    simp only [newYork2024_wall, newYork2024_resolve]
    rw [settled_eq, nsPerDay_eq] at hw
    split_ifs <;> omega
  · intro a b ha hb hs
    unfold Time at *
    rw [settled_eq, nsPerDay_eq] at hs
    rw [nsPerDay_eq] at ha hb
    simp only [newYork2024_wall] at ha hb hs ⊢
    split_ifs at ha hb hs ⊢ <;> omega

/-! ## Resolving clock times -/

theorem wallOfCivil_day (tz : Location) (now : Time) (hour min sec nsec : Int) :
    wallOfCivil (tz.Year now) (tz.Month now) (tz.Day now) hour min sec nsec
      = tz.dayNumber now * nsPerDay
        + hour * nsPerHour + min * nsPerMinute + sec * nsPerSecond + nsec := by
  simp only [wallOfCivil, Location.Year, Location.Month, Location.Day, Location.dayNumber,
    daysFromCivil_civilFromDays]

theorem dayNumber_eq_of_date_eq (tz : Location) (a b : Time)
    (hy : tz.Year a = tz.Year b) (hm : tz.Month a = tz.Month b) (hd : tz.Day a = tz.Day b) :
    tz.dayNumber a = tz.dayNumber b := by
  have ha := daysFromCivil_civilFromDays (tz.wall a / nsPerDay)
  have hb := daysFromCivil_civilFromDays (tz.wall b / nsPerDay)
  simp only [Location.Year, Location.Month, Location.Day] at hy hm hd
  rw [hy, hm, hd, hb] at ha
  exact ha.symm

/-- The wall-clock reading of an instant, split into its day and its fields. -/
theorem wall_eq_fields (tz : Location) (t : Time) :
    tz.wall t = tz.dayNumber t * nsPerDay + tz.Hour t * nsPerHour + tz.Minute t * nsPerMinute
      + tz.Second t * nsPerSecond + tz.Nanosecond t := by
  simp only [Location.dayNumber, Location.Hour, Location.Minute, Location.Second,
    Location.Nanosecond, nsPerDay_eq, nsPerHour_eq, nsPerMinute_eq, nsPerSecond_eq]
  omega

/-- The fields of a wall-clock reading within a day. -/
theorem fields_of_wall (tz : Location) (t : Time) (d h m s n : Int)
    (hw : tz.wall t = d * nsPerDay + h * nsPerHour + m * nsPerMinute + s * nsPerSecond + n)
    (hh : 0 ≤ h ∧ h < 24) (hm : 0 ≤ m ∧ m < 60) (hs : 0 ≤ s ∧ s < 60)
    (hn : 0 ≤ n ∧ n < 1000000000) :
    tz.dayNumber t = d ∧ tz.Hour t = h ∧ tz.Minute t = m ∧ tz.Second t = s
      ∧ tz.Nanosecond t = n := by
  simp only [Location.dayNumber, Location.Hour, Location.Minute, Location.Second,
    Location.Nanosecond, nsPerDay_eq, nsPerHour_eq, nsPerMinute_eq, nsPerSecond_eq] at hw ⊢
  omega

/-- On a regular day, a reading that some instant shows is resolved to an instant showing
it. -/
theorem wall_resolveOn_of_exists (tz : Location) (now : Time) (ct : ClockTime)
    (hreg : tz.RegularOn (tz.dayNumber now))
    (hh : 0 ≤ ct.hour ∧ ct.hour < 24) (hm : 0 ≤ ct.minute ∧ ct.minute < 60)
    (hex : ∃ t, tz.wall t = tz.dayNumber now * nsPerDay + clockNs ct.hour ct.minute) :
    tz.wall (resolveOn tz now ct)
      = tz.dayNumber now * nsPerDay + clockNs ct.hour ct.minute := by
  obtain ⟨t, ht⟩ := hex
  have hday : tz.wall t / nsPerDay = tz.dayNumber now := by
    rw [ht]
    simp only [clockNs, nsPerDay_eq, nsPerHour_eq, nsPerMinute_eq]
    omega
  have h := hreg.resolve_wall t hday
  rw [ht] at h
  have e : tz.dayNumber now * nsPerDay + ct.hour * nsPerHour + ct.minute * nsPerMinute
      + 0 * nsPerSecond + 0 = tz.dayNumber now * nsPerDay + clockNs ct.hour ct.minute := by
    simp only [clockNs]
    ring
  rw [resolveOn, Location.Date, wallOfCivil_day, e]
  exact h

/-- On a regular day, a reading from 03:00 on is resolved to an instant showing it. -/
theorem wall_resolveOn (tz : Location) (now : Time) (ct : ClockTime)
    (hreg : tz.RegularOn (tz.dayNumber now))
    (hh : 3 ≤ ct.hour ∧ ct.hour < 24) (hm : 0 ≤ ct.minute ∧ ct.minute < 60) :
    tz.wall (resolveOn tz now ct)
      = tz.dayNumber now * nsPerDay + clockNs ct.hour ct.minute := by
  apply wall_resolveOn_of_exists tz now ct hreg ⟨by omega, hh.2⟩ hm
  apply hreg.settled_exists
  · simp only [clockNs, nsPerDay_eq, nsPerHour_eq, nsPerMinute_eq]
    omega
  · simp only [clockNs, settled_eq, nsPerDay_eq, nsPerHour_eq, nsPerMinute_eq]
    omega

/-- The slice `timeSliceFromSchedule` returns: entry `i` is resolved on reading `i` of the
clock, and the clock is handed on behind the readings used. -/
theorem timeSliceFromSchedule_eq (tz : Location) (s : Schedule) :
    ∀ clock : Clock, timeSliceFromSchedule (some tz) s clock
      = some (List.ofFn (fun i : Fin s.length => resolveOn tz (clock i) (s.get i)),
          fun n => clock (n + s.length)) := by
  induction s with
  | nil => intro clock; simp [timeSliceFromSchedule]
  | cons ct s ih =>
    intro clock
    simp only [timeSliceFromSchedule, timeFromClockTime, Clock.now, ih, List.length_cons,
      List.ofFn_succ]
    simp only [resolveOn, Fin.val_zero, Fin.val_succ, List.get_cons_succ, Option.some.injEq,
      Prod.mk.injEq]
    exact ⟨rfl, rfl⟩

theorem resolveOn_eq_resolveDay (tz : Location) (now : Time) (ct : ClockTime) :
    resolveOn tz now ct = resolveDay tz (tz.dayNumber now) ct := by
  simp only [resolveOn, resolveDay, Location.Date, wallOfCivil_day, clockNs]
  congr 1
  ring

theorem wall_resolveDay (tz : Location) (d : Int) (ct : ClockTime) (hreg : tz.RegularOn d)
    (hct : ct.Settled) :
    tz.wall (resolveDay tz d ct) = d * nsPerDay + clockNs ct.hour ct.minute := by
  obtain ⟨h3, h24, hm0, hm60⟩ := hct
  have hday : (d * nsPerDay + clockNs ct.hour ct.minute) / nsPerDay = d := by
    simp only [clockNs, nsPerDay_eq, nsPerHour_eq, nsPerMinute_eq]
    omega
  have hset : settled ≤ (d * nsPerDay + clockNs ct.hour ct.minute) % nsPerDay := by
    simp only [clockNs, settled_eq, nsPerDay_eq, nsPerHour_eq, nsPerMinute_eq]
    omega
  obtain ⟨t, ht⟩ := hreg.settled_exists _ hday hset
  have h := hreg.resolve_wall t (by rw [ht]; exact hday)
  rw [ht] at h
  exact h

/-- On a regular day, an entry resolved on that day is after an instant of that day exactly
when its clock time is later than the time of day of that instant. -/
theorem resolveDay_after (tz : Location) (d : Int) (ct : ClockTime) (now : Time)
    (hreg : tz.RegularOn d) (hct : ct.Settled) (hnow : tz.dayNumber now = d) :
    (resolveDay tz d ct).After now = decide (tz.timeOfDay now < clockNs ct.hour ct.minute) := by
  have hw := wall_resolveDay tz d ct hreg hct
  obtain ⟨h3, h24, hm0, hm60⟩ := hct
  have hord := hreg.settled_order now (resolveDay tz d ct) hnow
    (by rw [hw]; simp only [clockNs, nsPerDay_eq, nsPerHour_eq, nsPerMinute_eq]; omega)
    (by rw [hw]; simp only [clockNs, settled_eq, nsPerDay_eq, nsPerHour_eq, nsPerMinute_eq]
        omega)
  rw [hw] at hord
  simp only [Time.After]
  rw [decide_eq_decide, hord]
  simp only [Location.dayNumber, Location.timeOfDay, nsPerDay_eq] at hnow ⊢
  omega

theorem timeSliceFromSchedule_sameDay (tz : Location) (d : Int) (s : Schedule) :
    ∀ clock : Clock, (∀ i, i < s.length → tz.dayNumber (clock i) = d) →
      timeSliceFromSchedule (some tz) s clock
        = some (s.map (resolveDay tz d), fun n => clock (n + s.length)) := by
  intro clock hday
  rw [timeSliceFromSchedule_eq]
  congr 2
  apply List.ext_get
  · simp
  · intro i h1 h2
    simp only [List.get_eq_getElem, List.getElem_ofFn, List.getElem_map]
    rw [resolveOn_eq_resolveDay, hday i (by simpa using h1)]

theorem departures_sameDay (tz : Location) (s : Schedule) (clock : Clock)
    (hday : ∀ i, i ≤ s.length → tz.dayNumber (clock i) = tz.dayNumber (clock 0)) :
    departures (some tz) s clock
      = some (clock 0,
          timesAfter (s.map (resolveDay tz (tz.dayNumber (clock 0)))) (clock 0) 3) := by
  simp only [departures, Clock.now]
  rw [timeSliceFromSchedule_sameDay tz (tz.dayNumber (clock 0)) s]
  intro i hi
  exact hday (i + 1) (by omega)

theorem scheduleFor_settled (location : String) (s : Schedule)
    (hs : scheduleFor location = some s) : ∀ ct ∈ s, ct.Settled := by
  unfold scheduleFor at hs
  split_ifs at hs <;> cases hs <;> simp only [ClockTime.Settled] <;> decide

/-- The clock times of a schedule still to come at the time of day `tod`, at most 3. -/
theorem filter_resolveDay (tz : Location) (d : Int) (now : Time) (hreg : tz.RegularOn d)
    (hnow : tz.dayNumber now = d) (s : Schedule) (hs : ∀ ct ∈ s, ct.Settled) :
    (s.map (resolveDay tz d)).filter (fun t => t.After now)
      = (s.filter (fun ct => decide (tz.timeOfDay now < clockNs ct.hour ct.minute))).map
          (resolveDay tz d) := by
  rw [List.filter_map]
  congr 1
  apply List.filter_congr
  intro ct hct
  exact resolveDay_after tz d ct now hreg (hs ct hct) hnow

theorem departures_regular (tz : Location) (s : Schedule) (clock : Clock)
    (hs : ∀ ct ∈ s, ct.Settled)
    (hday : ∀ i, i ≤ s.length → tz.dayNumber (clock i) = tz.dayNumber (clock 0))
    (hreg : tz.RegularOn (tz.dayNumber (clock 0))) :
    departures (some tz) s clock
      = some (clock 0,
          ((s.filter (fun ct =>
              decide (tz.timeOfDay (clock 0) < clockNs ct.hour ct.minute))).take 3).map
            (resolveDay tz (tz.dayNumber (clock 0)))) := by
  rw [departures_sameDay tz s clock hday, timesAfter_eq_take_filter _ _ 3 (by decide),
    filter_resolveDay tz _ (clock 0) hreg rfl s hs, List.map_take]
  rfl

theorem format_resolveDay (tz : Location) (d : Int) (ct : ClockTime) (hreg : tz.RegularOn d)
    (hct : ct.Settled) (layout : String) :
    tz.Format (resolveDay tz d ct) layout = formatClock ct.hour ct.minute 0 layout := by
  have hw := wall_resolveDay tz d ct hreg hct
  obtain ⟨h3, h24, hm0, hm60⟩ := hct
  have hf := fields_of_wall tz (resolveDay tz d ct) d ct.hour ct.minute 0 0
    (by rw [hw]; simp only [clockNs]; ring) ⟨by omega, h24⟩ ⟨hm0, hm60⟩ (by decide) (by decide)
  simp only [Location.Format, hf.2.1, hf.2.2.1, hf.2.2.2.1]

theorem formatTimeSlice_resolveDay (tz : Location) (d : Int) (hreg : tz.RegularOn d)
    (l : Schedule) (hl : ∀ ct ∈ l, ct.Settled) (layout : String) :
    formatTimeSlice tz (l.map (resolveDay tz d)) layout
      = l.map (fun ct => formatClock ct.hour ct.minute 0 layout) := by
  simp only [formatTimeSlice, List.map_map]
  apply List.map_congr_left
  intro ct hct
  exact format_resolveDay tz d ct hreg (hl ct hct) layout

/-- The response to a request for a known location, on a regular day on which all the clock
readings of the request fall: the first 3 clock times of the schedule that are later than
the time of day of `now`, in the layout `3:04PM`. -/
theorem slackHandler_regular (env : Env) (tz : Location) (form : Values) (s : Schedule)
    (clock : Clock) (htz : env.location = some tz)
    (hs : scheduleFor (ToLower env.lowerTable (form.Get "text")) = some s)
    (hday : ∀ i, i ≤ s.length → tz.dayNumber (clock i) = tz.dayNumber (clock 0))
    (hreg : tz.RegularOn (tz.dayNumber (clock 0))) :
    slackHandler env ⟨some form⟩ clock
      = some { contentType := "text/plain; charset=UTF-8", status := 200,
               body := "Upcoming departures: " ++ ", ".intercalate
                 (((s.filter (fun ct =>
                     decide (tz.timeOfDay (clock 0) < clockNs ct.hour ct.minute))).take 3).map
                   (fun ct => formatClock ct.hour ct.minute 0 "3:04PM")) } := by
  have hset := scheduleFor_settled _ s hs
  have hdep := departures_regular tz s clock hset hday hreg
  have hfmt := formatTimeSlice_resolveDay tz _ hreg
    ((s.filter (fun ct => decide (tz.timeOfDay (clock 0) < clockNs ct.hour ct.minute))).take 3)
    (fun ct hct => hset ct (List.mem_of_mem_filter (List.mem_of_mem_take hct))) "3:04PM"
  simp only [slackHandler, hs, htz, hdep, hfmt]

/-! ## The claims about `timesAfter` -/

theorem timesAfter_sublist (ts : TimeSlice) (comp : Time) (limit : Int) :
    (timesAfter ts comp limit).Sublist (ts.filter (fun t => t.After comp)) := by
  by_cases h : 1 ≤ limit
  · rw [timesAfter_eq_take_filter ts comp limit h]
    exact List.take_sublist _ _
  · rw [timesAfter_nonpos ts comp limit (by omega)]
    induction ts with
    | nil => simp
    | cons t ts ih =>
      by_cases ht : t.After comp = true
      · rw [List.find?_cons_of_pos (p := fun u : Time => u.After comp) _ ht,
          List.filter_cons_of_pos (p := fun u : Time => u.After comp) ht]
        simp
      · rw [List.find?_cons_of_neg (p := fun u : Time => u.After comp) _ ht,
          List.filter_cons_of_neg (p := fun u : Time => u.After comp) ht]
        exact ih

theorem timesAfter_forall_after (ts : TimeSlice) (comp : Time) (limit : Int) :
    ∀ t ∈ timesAfter ts comp limit, comp < t := by
  intro t ht
  have h := (timesAfter_sublist ts comp limit).subset ht
  simpa [Time.After] using (List.mem_filter.mp h).2

theorem departures_eq (tz : Location) (s : Schedule) (clock : Clock) :
    departures (some tz) s clock
      = some (clock 0,
          timesAfter (List.ofFn (fun i : Fin s.length => resolveOn tz (clock (i + 1)) (s.get i)))
            (clock 0) 3) := by
  simp only [departures, Clock.now, timeSliceFromSchedule_eq]

theorem ofFn_frozen (tz : Location) (s : Schedule) (T : Time) :
    List.ofFn (fun i : Fin s.length => resolveOn tz (Clock.frozen T (i + 1)) (s.get i))
      = s.map (resolveOn tz T) := by
  apply List.ext_get
  · simp
  · intro i h1 h2
    simp [Clock.frozen]

/-- C1: for a valid location, whatever the clock shows during the request, the handler
computes a list of at most 3 departures, each strictly after the instant `now` it read; when
the clock shows the one instant `T` throughout, the list is `timesAfter` of the schedule
resolved on the calendar date of `T`, with `comp = T` and `limit = 3`. -/
theorem departures_at_most_three_after_now (tz : Location) (location : String) (s : Schedule)
    (clock : Clock) (T : Time) (_hs : scheduleFor location = some s) :
    (∃ times, departures (some tz) s clock = some (clock 0, times)
        ∧ 0 ≤ times.length ∧ times.length ≤ 3 ∧ ∀ t ∈ times, clock 0 < t)
      ∧ departures (some tz) s (Clock.frozen T)
          = some (T, timesAfter (s.map (resolveOn tz T)) T 3) := by
  refine ⟨⟨_, departures_eq tz s clock, Nat.zero_le _, ?_, timesAfter_forall_after _ _ _⟩, ?_⟩
  · rw [timesAfter_eq_take_filter _ _ 3 (by decide)]
    exact List.length_take_le _ _
  · rw [departures_eq, ofFn_frozen]
    rfl

/-- C2: for a limit of at least 1, `timesAfter` is the first `limit` elements of the list
filtered, in order, to the instants strictly after `comp`; with the limit 3 of the handler
the result has exactly `min 3 k` elements, `k` being the number of instants strictly after
`comp`. -/
theorem timesAfter_eq_take_filter_after (ts : TimeSlice) (comp : Time) (limit : Int)
    (h : 1 ≤ limit) :
    timesAfter ts comp limit = (ts.filter (fun t => decide (comp < t))).take limit.toNat
      ∧ (timesAfter ts comp 3).length = min 3 (ts.countP (fun t => decide (comp < t)))
      ∧ ∀ (tz : Location) (s : Schedule) (clock : Clock),
          departures (some tz) s clock
            = some (clock 0,
                ((List.ofFn (fun i : Fin s.length =>
                    resolveOn tz (clock (i + 1)) (s.get i))).filter
                  (fun t => decide (clock 0 < t))).take 3) := by
  refine ⟨timesAfter_eq_take_filter ts comp limit h, ?_, ?_⟩
  · rw [timesAfter_eq_take_filter ts comp 3 (by decide), List.length_take,
      List.countP_eq_length_filter]
    rfl
  · intro tz s clock
    rw [departures_eq, timesAfter_eq_take_filter _ _ 3 (by decide)]
    rfl

/-- C10: with a limit of 0 or less, `timesAfter` returns exactly the first instant of `ts`
strictly after `comp` when there is one, and the empty list only when there is none. -/
theorem timesAfter_nonpositive_limit (ts : TimeSlice) (comp : Time) (limit : Int)
    (h : limit ≤ 0) :
    ((∃ t ∈ ts, comp < t) →
        ∃ x, ts.find? (fun t => decide (comp < t)) = some x ∧ comp < x
          ∧ timesAfter ts comp limit = [x])
      ∧ (timesAfter ts comp limit = [] ↔ ∀ t ∈ ts, ¬ comp < t) := by
  have hfind := timesAfter_nonpos ts comp limit h
  have hfun : (fun t : Time => t.After comp) = (fun t : Time => decide (comp < t)) := rfl
  rw [hfun] at hfind
  constructor
  · rintro ⟨t, ht, hlt⟩
    cases hx : ts.find? (fun t => decide (comp < t)) with
    | none =>
      have := List.find?_eq_none.mp hx t ht
      simp [hlt] at this
    | some x =>
      refine ⟨x, rfl, ?_, ?_⟩
      · simpa using List.find?_some hx
      · rw [hfind, hx]
        rfl
  · rw [hfind]
    cases hx : ts.find? (fun t => decide (comp < t)) with
    | none =>
      simp only [Option.toList, true_iff]
      intro t ht
      simpa using List.find?_eq_none.mp hx t ht
    | some x =>
      simp only [Option.toList, List.cons_ne_nil, false_iff, not_forall]
      exact ⟨x, List.mem_of_find?_eq_some hx, by simpa using List.find?_some hx⟩


/-! ## The claims about the departures of a day -/

theorem scheduleFor_bva : scheduleFor "bva" = some bvaSchedule := by
  decide

theorem scheduleFor_vaco : scheduleFor "vaco" = some vacoSchedule := by
  decide

theorem scheduleFor_eq_some_iff (location : String) (s : Schedule) :
    scheduleFor location = some s ↔
      (location = "bva" ∧ scheduleFor "bva" = some s)
        ∨ (location = "vaco" ∧ scheduleFor "vaco" = some s) := by
  constructor
  · intro h
    by_cases h1 : location = "bva"
    · exact Or.inl ⟨h1, h1 ▸ h⟩
    · by_cases h2 : location = "vaco"
      · exact Or.inr ⟨h2, h2 ▸ h⟩
      · simp [scheduleFor, h1, h2] at h
  · rintro (⟨h1, h⟩ | ⟨h1, h⟩) <;> rw [h1] <;> exact h

/-- Both hardcoded schedules are listed in ascending time-of-day order. -/
theorem scheduleFor_ascending (location : String) (s : Schedule)
    (hs : scheduleFor location = some s) :
    s.Pairwise (fun a b => clockNs a.hour a.minute < clockNs b.hour b.minute) := by
  rcases (scheduleFor_eq_some_iff location s).mp hs with ⟨_, h⟩ | ⟨_, h⟩
  · rw [scheduleFor_bva] at h
    cases h
    decide
  · rw [scheduleFor_vaco] at h
    cases h
    decide

/-- On a regular day, entries resolved on that day are in the order of their clock times. -/
theorem resolveDay_lt (tz : Location) (d : Int) (a b : ClockTime) (hreg : tz.RegularOn d)
    (ha : a.Settled) (hb : b.Settled)
    (hab : clockNs a.hour a.minute < clockNs b.hour b.minute) :
    resolveDay tz d a < resolveDay tz d b := by
  have hwa := wall_resolveDay tz d a hreg ha
  have hwb := wall_resolveDay tz d b hreg hb
  obtain ⟨a3, a24, am0, am60⟩ := ha
  obtain ⟨b3, b24, bm0, bm60⟩ := hb
  have hord := hreg.settled_order (resolveDay tz d a) (resolveDay tz d b)
    (by rw [hwa]; simp only [clockNs, nsPerDay_eq, nsPerHour_eq, nsPerMinute_eq]; omega)
    (by rw [hwb]; simp only [clockNs, nsPerDay_eq, nsPerHour_eq, nsPerMinute_eq]; omega)
    (by rw [hwb]; simp only [clockNs, settled_eq, nsPerDay_eq, nsPerHour_eq, nsPerMinute_eq]
        omega)
  rw [hord, hwa, hwb]
  omega

/-- C3: for a hardcoded schedule, on a regular day on which all the clock readings of the
request fall, the departures the handler returns are non-decreasing in the order returned;
the schedule is listed in ascending time-of-day order and `timesAfter` keeps the order of
its input. -/
theorem departures_nondecreasing (tz : Location) (location : String) (s : Schedule)
    (clock : Clock) (hs : scheduleFor location = some s)
    (hday : ∀ i, i ≤ s.length → tz.dayNumber (clock i) = tz.dayNumber (clock 0))
    (hreg : tz.RegularOn (tz.dayNumber (clock 0))) :
    (∃ times, departures (some tz) s clock = some (clock 0, times)
        ∧ times.Pairwise (fun a b => a ≤ b))
      ∧ s.Pairwise (fun a b => clockNs a.hour a.minute < clockNs b.hour b.minute)
      ∧ ∀ (ts : TimeSlice) (comp : Time) (limit : Int), (timesAfter ts comp limit).Sublist ts := by
  have hset := scheduleFor_settled location s hs
  have hasc := scheduleFor_ascending location s hs
  refine ⟨⟨_, departures_regular tz s clock hset hday hreg, ?_⟩, hasc, ?_⟩
  · apply List.Pairwise.map (R := fun a b : ClockTime =>
      (a.Settled ∧ b.Settled) ∧ clockNs a.hour a.minute < clockNs b.hour b.minute)
    · intro a b hab
      exact le_of_lt (resolveDay_lt tz _ a b hreg hab.1.1 hab.1.2 hab.2)
    · apply List.Pairwise.sublist ((List.take_sublist _ _).trans (List.filter_sublist _))
      apply List.Pairwise.and _ hasc
      rw [List.pairwise_iff_forall_sublist]
      intro a b hab
      have := hab.subset
      exact ⟨hset a (this (by simp)), hset b (this (by simp))⟩
  · intro ts comp limit
    exact (timesAfter_sublist ts comp limit).trans (List.filter_sublist _)

/-- C6, as amended: no next-day wraparound while the request stays within the day.  On a
regular day on which all the clock readings of the request fall, once the time of day of
`now` is at or after the last departure of the location (17:05 for `bva`, 17:50 for
`vaco`), the handler computes no departure and answers 200 with the body
`Upcoming departures: `. -/
theorem no_next_day_wraparound (env : Env) (tz : Location) (form : Values) (s : Schedule)
    (clock : Clock) (htz : env.location = some tz)
    (hs : scheduleFor (ToLower env.lowerTable (form.Get "text")) = some s)
    (hlate : (ToLower env.lowerTable (form.Get "text") = "bva"
          ∧ clockNs 17 5 ≤ tz.timeOfDay (clock 0))
        ∨ (ToLower env.lowerTable (form.Get "text") = "vaco"
          ∧ clockNs 17 50 ≤ tz.timeOfDay (clock 0)))
    (hday : ∀ i, i ≤ s.length → tz.dayNumber (clock i) = tz.dayNumber (clock 0))
    (hreg : tz.RegularOn (tz.dayNumber (clock 0))) :
    departures (some tz) s clock = some (clock 0, [])
      ∧ slackHandler env ⟨some form⟩ clock
          = some { contentType := "text/plain; charset=UTF-8", status := 200,
                   body := "Upcoming departures: " } := by
  have hset := scheduleFor_settled _ s hs
  have hnone : s.filter (fun ct =>
      decide (tz.timeOfDay (clock 0) < clockNs ct.hour ct.minute)) = [] := by
    rw [List.filter_eq_nil_iff]
    intro ct hct
    rcases hlate with ⟨hloc, hlate⟩ | ⟨hloc, hlate⟩
    · rw [hloc, scheduleFor_bva] at hs
      cases hs
      have : clockNs ct.hour ct.minute ≤ clockNs 17 5 := by
        revert ct
        decide
      simp only [decide_eq_true_eq]
      omega
    · rw [hloc, scheduleFor_vaco] at hs
      cases hs
      have : clockNs ct.hour ct.minute ≤ clockNs 17 50 := by
        revert ct
        decide
      simp only [decide_eq_true_eq]
      omega
  constructor
  · rw [departures_regular tz s clock hset hday hreg, hnone]
    rfl
  · rw [slackHandler_regular env tz form s clock htz hs hday hreg, hnone]
    rfl

/-- C6, the claim as stated fails: for a request for `vaco` whose `now` is read at
23:59:59.999999999 of 1 June 2024, after the last departure of 17:50, the schedule entries
are resolved on readings after midnight, the list of departures is not empty and the
handler answers with the departures of the next morning. -/
theorem wraparound_at_midnight_counterexample :
    clockNs 17 50 ≤ newYork2024.timeOfDay (midnightClock 0)
      ∧ scheduleFor "vaco" = some vacoSchedule
      ∧ (departures (some newYork2024) vacoSchedule midnightClock).map
          (fun r => r.2.length) = some 3
      ∧ departures (some newYork2024) vacoSchedule midnightClock
          ≠ some (midnightClock 0, [])
      ∧ slackHandler ⟨some newYork2024, id⟩ ⟨some (fun _ => ["vaco"])⟩ midnightClock
          = some { contentType := "text/plain; charset=UTF-8", status := 200,
                   body := "Upcoming departures: 7:00AM, 8:05AM, 9:10AM" }
      ∧ slackHandler ⟨some newYork2024, id⟩ ⟨some (fun _ => ["vaco"])⟩ midnightClock
          ≠ some { contentType := "text/plain; charset=UTF-8", status := 200,
                   body := "Upcoming departures: " } := by
  decide

/-- C7: for the location `bva`, on a regular day on which all the clock readings of the
request fall, when the time of day of `now` is from 07:15 up to but excluding 07:20 the
first departure kept is the one of 07:20 and the handler answers 200, `text/plain`, with the
body `Upcoming departures: 7:20AM, 8:25AM, 9:30AM`. -/
theorem bva_quarter_past_seven (env : Env) (tz : Location) (form : Values) (s : Schedule)
    (clock : Clock) (htz : env.location = some tz)
    (hloc : ToLower env.lowerTable (form.Get "text") = "bva")
    (hs : scheduleFor "bva" = some s)
    (hfrom : clockNs 7 15 ≤ tz.timeOfDay (clock 0))
    (hbefore : tz.timeOfDay (clock 0) < clockNs 7 20)
    (hday : ∀ i, i ≤ s.length → tz.dayNumber (clock i) = tz.dayNumber (clock 0))
    (hreg : tz.RegularOn (tz.dayNumber (clock 0))) :
    (∃ t rest, departures (some tz) s clock = some (clock 0, t :: rest)
        ∧ tz.Hour t = 7 ∧ tz.Minute t = 20
        ∧ tz.dayNumber t = tz.dayNumber (clock 0))
      ∧ slackHandler env ⟨some form⟩ clock
          = some { contentType := "text/plain; charset=UTF-8", status := 200,
                   body := "Upcoming departures: 7:20AM, 8:25AM, 9:30AM" } := by
  have _ := hfrom
  have hs1 : scheduleFor (ToLower env.lowerTable (form.Get "text")) = some s := by
    rw [hloc]
    exact hs
  have hset := scheduleFor_settled _ s hs
  have hall : s.filter (fun ct =>
      decide (tz.timeOfDay (clock 0) < clockNs ct.hour ct.minute)) = s := by
    rw [List.filter_eq_self]
    intro ct hct
    rw [scheduleFor_bva] at hs
    cases hs
    have : clockNs 7 20 ≤ clockNs ct.hour ct.minute := by
      revert ct
      decide
    simp only [decide_eq_true_eq]
    omega
  constructor
  · refine ⟨resolveDay tz (tz.dayNumber (clock 0)) ⟨7, 20⟩,
      [resolveDay tz (tz.dayNumber (clock 0)) ⟨8, 25⟩,
        resolveDay tz (tz.dayNumber (clock 0)) ⟨9, 30⟩], ?_, ?_⟩
    · rw [departures_regular tz s clock hset hday hreg, hall]
      rw [scheduleFor_bva] at hs
      cases hs
      rfl
    · have hw := wall_resolveDay tz (tz.dayNumber (clock 0)) ⟨7, 20⟩ hreg
        (by unfold ClockTime.Settled; decide)
      have hf := fields_of_wall tz _ (tz.dayNumber (clock 0)) 7 20 0 0
        (by rw [hw]; simp only [clockNs]; ring) (by decide) (by decide) (by decide) (by decide)
      exact ⟨hf.2.1, hf.2.2.1, hf.1⟩
  · rw [slackHandler_regular env tz form s clock htz hs1 hday hreg, hall]
    rw [scheduleFor_bva] at hs
    cases hs
    decide

/-! ## Formatting -/

theorem layoutChunks_kitchen : layoutChunks "3:04PM".data
    = [Chunk.stdHour12, Chunk.lit ':', Chunk.stdZeroMinute, Chunk.stdPM] := by
  decide

theorem appendInt_hour12 (n : Int) (h1 : 1 ≤ n) (h12 : n ≤ 12) :
    appendInt n 0 = if n < 10 then [digit n] else [digit (n / 10), digit (n % 10)] := by
  interval_cases n <;> decide

theorem appendInt_minute (m : Int) (h0 : 0 ≤ m) (h60 : m < 60) :
    appendInt m 2 = [digit (m / 10), digit (m % 10)] := by
  interval_cases m <;> decide

theorem formatClock_kitchen (h m sec : Int) (hh : 0 ≤ h ∧ h < 24) (hm : 0 ≤ m ∧ m < 60) :
    formatClock h m sec "3:04PM" = clock12 h m := by
  have h12 : 1 ≤ (if h % 12 = 0 then 12 else h % 12)
      ∧ (if h % 12 = 0 then 12 else h % 12) ≤ 12 := by
    split_ifs <;> omega
  have hap : (if h ≥ 12 then ['P', 'M'] else ['A', 'M'])
      = (if h < 12 then ['A', 'M'] else ['P', 'M']) := by
    split_ifs <;> first | rfl | omega
  rw [formatClock, layoutChunks_kitchen]
  simp only [List.flatMap_cons, List.flatMap_nil,
    formatChunk, clock12, appendInt_hour12 _ h12.1 h12.2, appendInt_minute m hm.1 hm.2, hap,
    List.append_nil, List.append_assoc]

theorem hour_range (tz : Location) (t : Time) : 0 ≤ tz.Hour t ∧ tz.Hour t < 24 := by
  simp only [Location.Hour, nsPerDay_eq, nsPerHour_eq]
  omega

theorem minute_range (tz : Location) (t : Time) : 0 ≤ tz.Minute t ∧ tz.Minute t < 60 := by
  simp only [Location.Minute, nsPerHour_eq, nsPerMinute_eq]
  omega

/-- C9: in the layout `3:04PM` an hour `h` of 0..23 and a minute `m` of 0..59 are written as
the hour of the 12-hour clock without a leading zero, a colon, the minute in two digits and
`AM` or `PM`; `formatTimeSlice` writes every instant of its input so, keeping length and
order; and the body of the answer is `Upcoming departures: ` followed by these texts joined
with a comma and a blank. -/
theorem format_three_oh_four_pm (h m sec : Int) (hh : 0 ≤ h ∧ h < 24) (hm : 0 ≤ m ∧ m < 60) :
    formatClock h m sec "3:04PM" = clock12 h m
      ∧ (formatClock 15 4 0 "3:04PM" = "3:04PM" ∧ formatClock 12 45 0 "3:04PM" = "12:45PM"
          ∧ formatClock 16 0 0 "3:04PM" = "4:00PM")
      ∧ (∀ (tz : Location) (ts : TimeSlice),
          formatTimeSlice tz ts "3:04PM"
            = ts.map (fun t => clock12 (tz.Hour t) (tz.Minute t)))
      ∧ (∀ (tz : Location) (ts : TimeSlice) (layout : String),
          (formatTimeSlice tz ts layout).length = ts.length
            ∧ ∀ i : Nat, (formatTimeSlice tz ts layout)[i]?
                = (ts[i]?).map (fun t => tz.Format t layout))
      ∧ (∀ (env : Env) (tz : Location) (form : Values) (s : Schedule) (clock : Clock),
          env.location = some tz →
          scheduleFor (ToLower env.lowerTable (form.Get "text")) = some s →
          ∃ times, departures (some tz) s clock = some (clock 0, times)
            ∧ slackHandler env ⟨some form⟩ clock
              = some { contentType := "text/plain; charset=UTF-8", status := 200,
                       body := "Upcoming departures: " ++ ", ".intercalate
                         (times.map (fun t => clock12 (tz.Hour t) (tz.Minute t))) }) := by
  have hfmt : ∀ (tz : Location) (ts : TimeSlice),
      formatTimeSlice tz ts "3:04PM" = ts.map (fun t => clock12 (tz.Hour t) (tz.Minute t)) := by
    intro tz ts
    simp only [formatTimeSlice, Location.Format]
    apply List.map_congr_left
    intro t _
    exact formatClock_kitchen _ _ _ (hour_range tz t) (minute_range tz t)
  refine ⟨formatClock_kitchen h m sec hh hm, ⟨by decide, by decide, by decide⟩, hfmt, ?_, ?_⟩
  · intro tz ts layout
    simp [formatTimeSlice]
  · intro env tz form s clock htz hs
    refine ⟨_, departures_eq tz s clock, ?_⟩
    simp only [slackHandler, hs, htz, departures_eq, hfmt]

/-! ## Locations, known and unknown -/

theorem scheduleFor_eq_none (location : String) (h1 : location ≠ "bva")
    (h2 : location ≠ "vaco") : scheduleFor location = none := by
  simp [scheduleFor, h1, h2]

theorem writeError_notFound : writeError "Shuttle location not found" 500
    = { contentType := "application/json; charset=UTF-8", status := 500,
        body := notFoundJSON ++ "\n" } := by
  decide

/-- C4, as amended: a `text` whose lowercased form is neither `bva` nor `vaco` is answered
with status 500 and a body that is the JSON text of the specification followed by the
newline `Encoder.Encode` ends it with, never with a 200 answer; for `bva` and `vaco` the
handler never gives this answer, and no answer of status 500. -/
theorem unknown_location_error (env : Env) (form : Values) (clock : Clock) :
    (ToLower env.lowerTable (form.Get "text") ≠ "bva" →
      ToLower env.lowerTable (form.Get "text") ≠ "vaco" →
        slackHandler env ⟨some form⟩ clock
          = some { contentType := "application/json; charset=UTF-8", status := 500,
                   body := notFoundJSON ++ "\n" })
      ∧ (ToLower env.lowerTable (form.Get "text") = "bva"
          ∨ ToLower env.lowerTable (form.Get "text") = "vaco" →
        ∀ r, slackHandler env ⟨some form⟩ clock = some r →
          r.status = 200 ∧ r.contentType = "text/plain; charset=UTF-8"
            ∧ r ≠ writeError "Shuttle location not found" 500) := by
  constructor
  · intro h1 h2
    simp only [slackHandler, scheduleFor_eq_none _ h1 h2, writeError_notFound]
  · intro hloc r hr
    obtain ⟨s, hs⟩ : ∃ s, scheduleFor (ToLower env.lowerTable (form.Get "text")) = some s := by
      rcases hloc with h | h
      · exact ⟨_, h ▸ scheduleFor_bva⟩
      · exact ⟨_, h ▸ scheduleFor_vaco⟩
    simp only [slackHandler, hs] at hr
    split at hr
    · cases hr
      refine ⟨rfl, rfl, ?_⟩
      rw [writeError_notFound]
      intro h
      have := congrArg Response.status h
      simp at this
    · cases hr

/-- C4, the claim as stated fails: the body written for the unknown location `xyz` is not
exactly the JSON text, it ends with a newline. -/
theorem unknown_location_body_has_newline :
    (slackHandler ⟨some newYork2024, id⟩ ⟨some (fun _ => ["xyz"])⟩ (Clock.frozen 0)).map
        (fun r => (r.status, r.body)) = some (500, notFoundJSON ++ "\n")
      ∧ (slackHandler ⟨some newYork2024, id⟩ ⟨some (fun _ => ["xyz"])⟩ (Clock.frozen 0)).map
        (fun r => (r.status, r.body)) ≠ some (500, notFoundJSON) := by
  decide

/-! ## Letter case -/

theorem map_toLowerRune_of_sameUpToCase (table : Char → Char) (keyword : List Char)
    (hk : ∀ k ∈ keyword, toLowerRune table k = k ∧ toLowerRune table k.toUpper = k
      ∧ toLowerRune table k.toLower = k) :
    ∀ text : List Char, sameUpToCase text keyword = true →
      text.map (toLowerRune table) = keyword := by
  induction keyword with
  | nil =>
    intro text h
    cases text with
    | nil => rfl
    | cons a text => simp [sameUpToCase] at h
  | cons k keyword ih =>
    intro text h
    cases text with
    | nil => simp [sameUpToCase] at h
    | cons a text =>
      simp only [sameUpToCase, sameLetter, Bool.and_eq_true, Bool.or_eq_true,
        beq_iff_eq] at h
      obtain ⟨ha, htext⟩ := h
      have hk0 := hk k (by simp)
      rw [List.map_cons, ih (fun k1 h1 => hk k1 (List.mem_cons_of_mem _ h1)) text htext]
      congr 1
      rcases ha with (h | h) | h <;> rw [h]
      · exact hk0.1
      · exact hk0.2.1
      · exact hk0.2.2

theorem toLower_of_sameUpToCase (table : Char → Char) (text keyword : String)
    (hk : keyword = "bva" ∨ keyword = "vaco")
    (h : sameUpToCase text.data keyword.data = true) : ToLower table text = keyword := by
  have hmap := map_toLowerRune_of_sameUpToCase table keyword.data (by
    rcases hk with rfl | rfl
    · intro k hk
      simp only [List.mem_cons, List.mem_singleton, List.not_mem_nil, or_false] at hk
      rcases hk with rfl | rfl | rfl <;> exact ⟨rfl, rfl, rfl⟩
    · intro k hk
      simp only [List.mem_cons, List.mem_singleton, List.not_mem_nil, or_false] at hk
      rcases hk with rfl | rfl | rfl | rfl <;> exact ⟨rfl, rfl, rfl⟩) text.data h
  simp only [ToLower, hmap]

/-- C5: the lookup is case-insensitive.  A `text` that differs from `bva`, or from `vaco`,
only in letter case is answered, on the same clock, exactly as the keyword itself: same
status, same content type, same body. -/
theorem location_case_insensitive (env : Env) (form form0 : Values) (keyword : String)
    (clock : Clock) (hk : keyword = "bva" ∨ keyword = "vaco")
    (hcase : sameUpToCase (form.Get "text").data keyword.data = true)
    (h0 : form0.Get "text" = keyword) :
    slackHandler env ⟨some form⟩ clock = slackHandler env ⟨some form0⟩ clock := by
  have h1 := toLower_of_sameUpToCase env.lowerTable (form.Get "text") keyword hk hcase
  have h2 := toLower_of_sameUpToCase env.lowerTable keyword keyword hk (by
    rcases hk with rfl | rfl <;> decide)
  simp only [slackHandler, h1, h0, h2]

/-! ## Time resolution -/

theorem date_of_dayNumber_eq (tz : Location) (a b : Time)
    (h : tz.dayNumber a = tz.dayNumber b) :
    tz.Year a = tz.Year b ∧ tz.Month a = tz.Month b ∧ tz.Day a = tz.Day b := by
  simp only [Location.dayNumber] at h
  simp only [Location.Year, Location.Month, Location.Day, h, and_self]

/-- On a regular day, the instant a clock time is resolved to shows the date of the clock
reading and the clock time, whenever some instant shows that reading. -/
theorem civil_resolveOn (tz : Location) (now : Time) (ct : ClockTime)
    (hh : 0 ≤ ct.hour ∧ ct.hour < 24) (hm : 0 ≤ ct.minute ∧ ct.minute < 60)
    (hreg : tz.RegularOn (tz.dayNumber now))
    (hex : ∃ t0, tz.civil t0
      = { year := tz.Year now, month := tz.Month now, day := tz.Day now, hour := ct.hour,
          minute := ct.minute, second := 0, nanosecond := 0 }) :
    tz.civil (resolveOn tz now ct)
      = { year := tz.Year now, month := tz.Month now, day := tz.Day now, hour := ct.hour,
          minute := ct.minute, second := 0, nanosecond := 0 } := by
  obtain ⟨t0, h0⟩ := hex
  simp only [Location.civil, Civil.mk.injEq] at h0
  obtain ⟨hy, hmo, hd, hhr, hmi, hse, hns⟩ := h0
  have hday := dayNumber_eq_of_date_eq tz t0 now hy hmo hd
  have hw0 := wall_eq_fields tz t0
  rw [hday, hhr, hmi, hse, hns] at hw0
  have hw := wall_resolveOn_of_exists tz now ct hreg hh hm
    ⟨t0, by rw [hw0]; simp only [clockNs]; ring⟩
  have hf := fields_of_wall tz (resolveOn tz now ct) (tz.dayNumber now) ct.hour ct.minute 0 0
    (by rw [hw]; simp only [clockNs]; ring) hh hm (by decide) (by decide)
  obtain ⟨hfd, hfh, hfm, hfs, hfn⟩ := hf
  have hdate := date_of_dayNumber_eq tz _ _ hfd
  simp only [Location.civil, hdate.1, hdate.2.1, hdate.2.2, hfh, hfm, hfs, hfn]

/-- C8, as amended: `timeFromClockTime` reads the clock once and, on a regular day, yields
for a clock time with hour in 0..23 and minute in 0..59 that some instant of the day shows
the instant whose year, month and day are those of that reading, whose hour and minute are
the given ones and whose seconds and nanoseconds are zero.  The handler reads `now` first
and every schedule entry is then resolved on the date of a clock reading of its own; when
all the readings of the request fall on the calendar day of `now`, which is regular, every
entry of a hardcoded schedule is resolved on the date of `now`. -/
theorem timeFromClockTime_resolves_on_reading_date (tz : Location) (ct : ClockTime)
    (clock : Clock) (hh : 0 ≤ ct.hour ∧ ct.hour < 24) (hm : 0 ≤ ct.minute ∧ ct.minute < 60)
    (hreg : tz.RegularOn (tz.dayNumber (clock 0)))
    (hex : ∃ t0, tz.civil t0
      = { year := tz.Year (clock 0), month := tz.Month (clock 0), day := tz.Day (clock 0),
          hour := ct.hour, minute := ct.minute, second := 0, nanosecond := 0 }) :
    (∃ t, timeFromClockTime (some tz) ct clock = some (t, fun n => clock (n + 1))
        ∧ tz.civil t
          = { year := tz.Year (clock 0), month := tz.Month (clock 0), day := tz.Day (clock 0),
              hour := ct.hour, minute := ct.minute, second := 0, nanosecond := 0 })
      ∧ (∀ s : Schedule, timeSliceFromSchedule (some tz) s (fun n => clock (n + 1))
          = some (List.ofFn (fun i : Fin s.length => resolveOn tz (clock (i + 1)) (s.get i)),
              fun n => clock (n + s.length + 1)))
      ∧ (∀ (location : String) (s : Schedule), scheduleFor location = some s →
          (∀ i, i ≤ s.length → tz.dayNumber (clock i) = tz.dayNumber (clock 0)) →
          ∃ ts, timeSliceFromSchedule (some tz) s (fun n => clock (n + 1))
              = some (ts, fun n => clock (n + s.length + 1))
            ∧ ts.length = s.length
            ∧ ∀ t ∈ ts, tz.Year t = tz.Year (clock 0) ∧ tz.Month t = tz.Month (clock 0)
                ∧ tz.Day t = tz.Day (clock 0)) := by
  refine ⟨⟨resolveOn tz (clock 0) ct, rfl, civil_resolveOn tz (clock 0) ct hh hm hreg hex⟩,
    fun s => timeSliceFromSchedule_eq tz s _, ?_⟩
  intro location s hs hday
  have hset := scheduleFor_settled location s hs
  refine ⟨s.map (resolveDay tz (tz.dayNumber (clock 0))), ?_, by simp, ?_⟩
  · exact timeSliceFromSchedule_sameDay tz _ s _ (fun i hi => hday (i + 1) (by omega))
  · intro t ht
    obtain ⟨c, hc, rfl⟩ := List.mem_map.mp ht
    have hw := wall_resolveDay tz _ c hreg (hset c hc)
    obtain ⟨h3, h24, hm0, hm60⟩ := hset c hc
    have hf := fields_of_wall tz (resolveDay tz (tz.dayNumber (clock 0)) c)
      (tz.dayNumber (clock 0)) c.hour c.minute 0 0
      (by rw [hw]; simp only [clockNs]; ring) ⟨by omega, h24⟩ ⟨hm0, hm60⟩ (by decide)
      (by decide)
    exact date_of_dayNumber_eq tz _ _ hf.1

/-- C8, the claim as stated fails, twice.  On 10 March 2024 no instant in New York shows
02:30, and `timeFromClockTime` yields for that clock time an instant showing 01:30; and for
a request whose `now` is read just before midnight the schedule entries are resolved on the
next calendar date, so that the handler answers with the departures of the next morning. -/
theorem resolution_date_counterexample :
    (timeFromClockTime (some newYork2024) ⟨2, 30⟩
        (Clock.frozen (newYorkTime 2024 3 10 12 0 0 0))).map
          (fun r => newYork2024.civil r.1)
        = some { year := 2024, month := 3, day := 10, hour := 1, minute := 30, second := 0,
                 nanosecond := 0 }
      ∧ (timeFromClockTime (some newYork2024) ⟨2, 30⟩
        (Clock.frozen (newYorkTime 2024 3 10 12 0 0 0))).map
          (fun r => newYork2024.civil r.1)
        ≠ some { year := 2024, month := 3, day := 10, hour := 2, minute := 30, second := 0,
                 nanosecond := 0 }
      ∧ (departures (some newYork2024) bvaSchedule midnightClock).map
          (fun r => (newYork2024.Day r.1, r.2.map newYork2024.Day)) = some (1, [2, 2, 2])
      ∧ (slackHandler ⟨some newYork2024, id⟩ ⟨some (fun _ => ["bva"])⟩ midnightClock).map
          (fun r => r.body) = some "Upcoming departures: 7:20AM, 8:25AM, 9:30AM" := by
  decide

/-! ## The claims at concrete requests -/

/-- C1 at the location `bva`, for a request around midnight and for one at 07:15 on
10 March 2024. -/
theorem departures_at_most_three_after_now_witness :
    scheduleFor "bva" = some bvaSchedule
      ∧ (∃ times, departures (some newYork2024) bvaSchedule midnightClock
            = some (midnightClock 0, times)
          ∧ 0 ≤ times.length ∧ times.length ≤ 3 ∧ ∀ t ∈ times, midnightClock 0 < t)
      ∧ departures (some newYork2024) bvaSchedule
          (Clock.frozen (newYorkTime 2024 3 10 7 15 0 0))
        = some (newYorkTime 2024 3 10 7 15 0 0,
            timesAfter (bvaSchedule.map (resolveOn newYork2024 (newYorkTime 2024 3 10 7 15 0 0)))
              (newYorkTime 2024 3 10 7 15 0 0) 3) :=
  ⟨scheduleFor_bva,
    departures_at_most_three_after_now newYork2024 "bva" bvaSchedule midnightClock
      (newYorkTime 2024 3 10 7 15 0 0) scheduleFor_bva⟩

/-- C2 at the instants 1, 5, 3, 7, 9 compared with 2, limit 2: the result is 5, 3. -/
theorem timesAfter_eq_take_filter_after_witness :
    (1 : Int) ≤ 2
      ∧ timesAfter [1, 5, 3, 7, 9] 2 2 = [5, 3]
      ∧ timesAfter [1, 5, 3, 7, 9] 2 2
        = (([1, 5, 3, 7, 9] : TimeSlice).filter (fun t => decide (2 < t))).take (2 : Int).toNat :=
  ⟨by decide, by decide,
    (timesAfter_eq_take_filter_after [1, 5, 3, 7, 9] 2 2 (by decide)).1⟩

/-- C10 at the instants 1, 5, 3, 7 compared with 2, limit 0: the result is 5 alone. -/
theorem timesAfter_nonpositive_limit_witness :
    (0 : Int) ≤ 0 ∧ (∃ t ∈ ([1, 5, 3, 7] : TimeSlice), 2 < t)
      ∧ ∃ x, ([1, 5, 3, 7] : TimeSlice).find? (fun t => decide (2 < t)) = some x ∧ 2 < x
          ∧ timesAfter [1, 5, 3, 7] 2 0 = [x] :=
  ⟨by decide, ⟨5, by decide, by decide⟩,
    (timesAfter_nonpositive_limit [1, 5, 3, 7] 2 0 (by decide)).1 ⟨5, by decide, by decide⟩⟩

/-- C3 at the location `vaco`, at noon of 3 November 2024, the day the clocks go back. -/
theorem departures_nondecreasing_witness :
    scheduleFor "vaco" = some vacoSchedule
      ∧ newYork2024.RegularOn
          (newYork2024.dayNumber (Clock.frozen (newYorkTime 2024 11 3 12 0 0 0) 0))
      ∧ ∃ times, departures (some newYork2024) vacoSchedule
            (Clock.frozen (newYorkTime 2024 11 3 12 0 0 0))
          = some (Clock.frozen (newYorkTime 2024 11 3 12 0 0 0) 0, times)
        ∧ times.Pairwise (fun a b => a ≤ b) :=
  ⟨scheduleFor_vaco, newYork2024_regularOn _,
    (departures_nondecreasing newYork2024 "vaco" vacoSchedule
      (Clock.frozen (newYorkTime 2024 11 3 12 0 0 0)) scheduleFor_vaco (fun _ _ => rfl)
      (newYork2024_regularOn _)).1⟩

/-- C6 at the location `bva`, at 17:10 of 10 March 2024. -/
theorem no_next_day_wraparound_witness :
    clockNs 17 5 ≤ newYork2024.timeOfDay (newYorkTime 2024 3 10 17 10 0 0)
      ∧ departures (some newYork2024) bvaSchedule
          (Clock.frozen (newYorkTime 2024 3 10 17 10 0 0))
        = some (newYorkTime 2024 3 10 17 10 0 0, [])
      ∧ slackHandler ⟨some newYork2024, id⟩ ⟨some (fun _ => ["bva"])⟩
          (Clock.frozen (newYorkTime 2024 3 10 17 10 0 0))
        = some { contentType := "text/plain; charset=UTF-8", status := 200,
                 body := "Upcoming departures: " } :=
  ⟨by decide,
    no_next_day_wraparound ⟨some newYork2024, id⟩ newYork2024 (fun _ => ["bva"]) bvaSchedule
      (Clock.frozen (newYorkTime 2024 3 10 17 10 0 0)) rfl (by decide)
      (Or.inl ⟨by decide, by decide⟩) (fun _ _ => rfl) (newYork2024_regularOn _)⟩

/-- C7 at 07:15 of 10 March 2024, the day the clocks go forward. -/
theorem bva_quarter_past_seven_witness :
    clockNs 7 15 ≤ newYork2024.timeOfDay (newYorkTime 2024 3 10 7 15 0 0)
      ∧ newYork2024.timeOfDay (newYorkTime 2024 3 10 7 15 0 0) < clockNs 7 20
      ∧ slackHandler ⟨some newYork2024, id⟩ ⟨some (fun _ => ["bva"])⟩
          (Clock.frozen (newYorkTime 2024 3 10 7 15 0 0))
        = some { contentType := "text/plain; charset=UTF-8", status := 200,
                 body := "Upcoming departures: 7:20AM, 8:25AM, 9:30AM" } :=
  ⟨by decide, by decide,
    (bva_quarter_past_seven ⟨some newYork2024, id⟩ newYork2024 (fun _ => ["bva"]) bvaSchedule
      (Clock.frozen (newYorkTime 2024 3 10 7 15 0 0)) rfl (by decide) scheduleFor_bva
      (by decide) (by decide) (fun _ _ => rfl) (newYork2024_regularOn _)).2⟩

/-- C9 at 15:04. -/
theorem format_three_oh_four_pm_witness :
    ((0 : Int) ≤ 15 ∧ (15 : Int) < 24) ∧ ((0 : Int) ≤ 4 ∧ (4 : Int) < 60)
      ∧ formatClock 15 4 0 "3:04PM" = clock12 15 4 ∧ clock12 15 4 = "3:04PM" :=
  ⟨by decide, by decide,
    (format_three_oh_four_pm 15 4 0 (by decide) (by decide)).1, by decide⟩

/-- C4, as amended, at the texts `bva ` (with a trailing blank), `xyz` and the empty text,
and conversely at `bva`. -/
theorem unknown_location_error_witness :
    ToLower id "bva " ≠ "bva" ∧ ToLower id "bva " ≠ "vaco"
      ∧ slackHandler ⟨some newYork2024, id⟩ ⟨some (fun _ => ["bva "])⟩ (Clock.frozen 0)
        = some { contentType := "application/json; charset=UTF-8", status := 500,
                 body := notFoundJSON ++ "\n" }
      ∧ slackHandler ⟨some newYork2024, id⟩ ⟨some (fun _ => ["xyz"])⟩ (Clock.frozen 0)
        = some { contentType := "application/json; charset=UTF-8", status := 500,
                 body := notFoundJSON ++ "\n" }
      ∧ slackHandler ⟨some newYork2024, id⟩ ⟨some (fun _ => [])⟩ (Clock.frozen 0)
        = some { contentType := "application/json; charset=UTF-8", status := 500,
                 body := notFoundJSON ++ "\n" }
      ∧ ∀ r, slackHandler ⟨some newYork2024, id⟩ ⟨some (fun _ => ["bva"])⟩ (Clock.frozen 0)
          = some r → r.status = 200 ∧ r.contentType = "text/plain; charset=UTF-8"
            ∧ r ≠ writeError "Shuttle location not found" 500 :=
  ⟨by decide, by decide,
    (unknown_location_error ⟨some newYork2024, id⟩ (fun _ => ["bva "]) (Clock.frozen 0)).1
      (by decide) (by decide),
    (unknown_location_error ⟨some newYork2024, id⟩ (fun _ => ["xyz"]) (Clock.frozen 0)).1
      (by decide) (by decide),
    (unknown_location_error ⟨some newYork2024, id⟩ (fun _ => []) (Clock.frozen 0)).1
      (by decide) (by decide),
    (unknown_location_error ⟨some newYork2024, id⟩ (fun _ => ["bva"]) (Clock.frozen 0)).2
      (Or.inl (by decide))⟩

/-- C5 at the texts `BVA` and `Bva`, at 07:15 of 10 March 2024. -/
theorem location_case_insensitive_witness :
    sameUpToCase "BVA".data "bva".data = true ∧ sameUpToCase "Bva".data "bva".data = true
      ∧ slackHandler ⟨some newYork2024, id⟩ ⟨some (fun _ => ["BVA"])⟩
          (Clock.frozen (newYorkTime 2024 3 10 7 15 0 0))
        = slackHandler ⟨some newYork2024, id⟩ ⟨some (fun _ => ["bva"])⟩
          (Clock.frozen (newYorkTime 2024 3 10 7 15 0 0))
      ∧ slackHandler ⟨some newYork2024, id⟩ ⟨some (fun _ => ["Bva"])⟩
          (Clock.frozen (newYorkTime 2024 3 10 7 15 0 0))
        = slackHandler ⟨some newYork2024, id⟩ ⟨some (fun _ => ["bva"])⟩
          (Clock.frozen (newYorkTime 2024 3 10 7 15 0 0)) :=
  ⟨by decide, by decide,
    location_case_insensitive ⟨some newYork2024, id⟩ (fun _ => ["BVA"]) (fun _ => ["bva"])
      "bva" _ (Or.inl rfl) (by decide) rfl,
    location_case_insensitive ⟨some newYork2024, id⟩ (fun _ => ["Bva"]) (fun _ => ["bva"])
      "bva" _ (Or.inl rfl) (by decide) rfl⟩

/-- C8, as amended, at the clock time 07:20 and a request at noon of 10 March 2024. -/
theorem timeFromClockTime_resolves_on_reading_date_witness :
    newYork2024.civil (newYorkTime 2024 3 10 7 20 0 0)
        = { year := 2024, month := 3, day := 10, hour := 7, minute := 20, second := 0,
            nanosecond := 0 }
      ∧ ∃ t, timeFromClockTime (some newYork2024) ⟨7, 20⟩
            (Clock.frozen (newYorkTime 2024 3 10 12 0 0 0))
          = some (t, fun n => Clock.frozen (newYorkTime 2024 3 10 12 0 0 0) (n + 1))
        ∧ newYork2024.civil t
          = { year := newYork2024.Year (newYorkTime 2024 3 10 12 0 0 0),
              month := newYork2024.Month (newYorkTime 2024 3 10 12 0 0 0),
              day := newYork2024.Day (newYorkTime 2024 3 10 12 0 0 0),
              hour := 7, minute := 20, second := 0, nanosecond := 0 } :=
  ⟨by decide,
    (timeFromClockTime_resolves_on_reading_date newYork2024 ⟨7, 20⟩
      (Clock.frozen (newYorkTime 2024 3 10 12 0 0 0)) (by decide) (by decide)
      (newYork2024_regularOn _) ⟨newYorkTime 2024 3 10 7 20 0 0, by decide⟩).1⟩

end Shuttlebot
